import Mathlib

/-!
Shallow embedding of the chat_simulator repository
(src/chat_simulator.py, src/chat_parser.py).

Text measurement (PIL `measure_text`) is an external collaborator and is
modelled as an abstract function `String → Nat × Nat` (width, height).
`random.randint` draws are modelled as explicit inputs ranging over the
valid intervals.  Raster drawing is a side effect with no observable value;
the embedding records what would be drawn (bubble boxes, label positions)
in a `RenderResult`.
-/

namespace ChatSim

/-- Speakers: the source uses the strings "sender" (speaker A) and
"receiver" (speaker B); the data model restricts roles to these two. -/
inductive Role where
  | sender
  | receiver
deriving DecidableEq, Repr

/-- One (role, text) message tuple. -/
structure Msg where
  role : Role
  text : String
deriving DecidableEq, Repr

/-- Python `str.strip()` (no arguments): remove leading and trailing
whitespace.  Embedded on the character list so that it evaluates in the
kernel.  (Python also strips `\x0b`/`\x0c`; `Char.isWhitespace` covers
space, tab, CR, LF — the characters relevant here.) -/
def pyStrip (s : String) : String :=
  String.mk
    (((s.data.dropWhile Char.isWhitespace).reverse.dropWhile
        Char.isWhitespace).reverse)

/-- Python `s[n:]`: drop the first `n` characters. -/
def pyDrop (s : String) (n : Nat) : String :=
  String.mk (s.data.drop n)

/-- Python `s.startswith(p)`, embedded as a character-list test. -/
def pyStartsWith (s p : String) : Bool :=
  p.data.isPrefixOf s.data

/-- Splitting a transcript into its lines (Python file iteration yields
each line; every line is stripped before use, so dropping the newline
characters here is immaterial).  `acc` holds the reversed characters of
the line in progress. -/
def splitNlAux : List Char → List Char → List String
  | [], acc => [String.mk acc.reverse]
  | c :: cs, acc =>
      if c = '\n' then String.mk acc.reverse :: splitNlAux cs []
      else splitNlAux cs (c :: acc)

def toLines (s : String) : List String :=
  splitNlAux s.data []

/-! ### Python `str.split()` (no arguments): split on whitespace runs,
dropping empty pieces.  Embedded by direct recursion on the character
list, with `acc` the (reversed) characters of the word in progress. -/

def splitWordsAux : List Char → List Char → List String
  | [], acc => if acc = [] then [] else [String.mk acc.reverse]
  | c :: cs, acc =>
      if c.isWhitespace then
        if acc = [] then splitWordsAux cs []
        else String.mk acc.reverse :: splitWordsAux cs []
      else splitWordsAux cs (c :: acc)

/-- Python `text.split()` as used in `wrap_text` (line 99). -/
def pythonSplit (s : String) : List String :=
  splitWordsAux s.toList []

/-- Python `" ".join(lines)`: join a list of strings with single spaces. -/
def joinSp : List String → String
  | [] => ""
  | [w] => w
  | w :: ws => w ++ " " ++ joinSp ws

/-! ### wrap_text (chat_simulator.py lines 93-116)

`measureW s` stands for `measure_text(draw_obj, s, font)[0]`.
The loop state is `current_line`; committed lines are produced in order. -/

def wrapAux (measureW : String → Nat) (maxWidth : Nat) :
    List String → String → List String
  | [], current => if current = "" then [] else [current]
  | word :: ws, current =>
      let test := current ++ (if current = "" then "" else " ") ++ word
      if measureW test ≤ maxWidth then
        wrapAux measureW maxWidth ws test
      else
        if current = "" then wrapAux measureW maxWidth ws word
        else current :: wrapAux measureW maxWidth ws word

/-- The function `wrap_text(text, font, draw_obj, max_width)` with the
font/draw pair abstracted into `measureW`. -/
def wrap_text (measureW : String → Nat) (text : String) (maxWidth : Nat) :
    List String :=
  wrapAux measureW maxWidth (pythonSplit text) ""

/-! ### generate_chat_image layout (chat_simulator.py lines 119-280) -/

/-- Layout constant `bubble_padding = 32` (line 168). -/
def bubble_padding : Nat := 32

/-- Layout constant `line_spacing = 8` (line 169). -/
def line_spacing : Nat := 8

/-- The numeric configuration of `generate_chat_image`.  Image dimensions
are Nats (PIL rejects negative sizes); the margins are arbitrary integers.
`bubble_max_text_width` is, in the source, derived from the canvas width
by the floating-point expression `int(img_width * 0.65 - 2*32)` (line
172); the float rounding is outside the integer model, so the derived
value is carried as an input here.  No claim depends on its value. -/
structure Config where
  img_width : Nat
  img_height : Nat
  bottom_padding : Int
  left_margin : Int
  right_margin : Int
  bubble_margin : Int
  same_person_margin : Int
  bubble_max_text_width : Nat
deriving Repr

/-- A rendered bubble's final canvas-space rectangle (the tuple
`(bubble_left, bubble_top, bubble_right, bubble_bottom)` of line 225),
together with the role it was laid out for. -/
structure Box where
  left : Int
  top : Int
  right : Int
  bottom : Int
  role : Role
deriving DecidableEq, Repr

/-- Lines 183-201: wrap the text and measure the text block.  Returns
`(text_block_width, text_block_height, line_height)`.  Python's
`max(line_widths)` over the non-empty list equals `foldl max 0` since all
widths are non-negative. -/
def textBlock (measure : String → Nat × Nat) (maxWidth : Nat) (text : String) :
    Nat × Nat × Nat :=
  let lines := wrap_text (fun s => (measure s).1) text maxWidth
  match lines with
  | [] => (0, 0, (measure ("Test")).2)
  | l :: _ =>
      ((lines.map (fun s => (measure s).1)).foldl max 0,
       (lines.map (fun s => (measure s).2)).sum +
         line_spacing * (lines.length - 1),
       (measure l).2)

/-- Lines 203-220: bubble dimensions and horizontal placement for one
message whose bottom edge sits at `current_y`. -/
def mkBox (measure : String → Nat × Nat) (cfg : Config) (m : Msg)
    (current_y : Int) : Box :=
  let tb := textBlock measure cfg.bubble_max_text_width m.text
  let bubble_width : Int := (tb.1 : Int) + 2 * (bubble_padding : Int)
  let bubble_height : Int := (tb.2.1 : Int) + 2 * (bubble_padding : Int)
  let bubble_bottom := current_y
  let bubble_top := bubble_bottom - bubble_height
  match m.role with
  | Role.sender =>
      { left := cfg.left_margin, top := bubble_top,
        right := cfg.left_margin + bubble_width, bottom := bubble_bottom,
        role := Role.sender }
  | Role.receiver =>
      { left := (cfg.img_width : Int) - cfg.right_margin - bubble_width,
        top := bubble_top,
        right := (cfg.img_width : Int) - cfg.right_margin,
        bottom := bubble_bottom, role := Role.receiver }

/-- The cursor update of lines 246-257: the gap below the next (older)
bubble depends on whether its role matches the current one. -/
def nextCursor (cfg : Config) (box : Box) (rest : List Msg) : Int :=
  match rest with
  | [] => box.top - cfg.bubble_margin
  | m2 :: _ =>
      if m2.role = box.role then box.top - cfg.same_person_margin
      else box.top - cfg.bubble_margin

/-- The main layout loop (lines 181-257) over the already-reversed
message list (newest first), producing the bubble boxes in processed
order (newest first). -/
def layoutRev (measure : String → Nat × Nat) (cfg : Config) :
    Int → List Msg → List Box
  | _, [] => []
  | y, m :: rest =>
      let box := mkBox measure cfg m y
      box :: layoutRev measure cfg (nextCursor cfg box rest) rest

/-- Zero-padded two-digit formatting (Python format code 02d) of a Nat,
as used by `generate_random_timestamp`. -/
def formatTwo (n : Nat) : String :=
  if n < 10 then "0" ++ Nat.repr n else Nat.repr n

/-- The function `generate_random_timestamp` (lines 84-90) with the two
`randint` draws made explicit: `rand_hour = random.randint(0, 23)`,
`rand_minute = random.randint(0, 59)`. -/
def generate_random_timestamp (rand_hour rand_minute : Nat) : String :=
  formatTwo rand_hour ++ ":" ++ formatTwo rand_minute

/-- The default demo conversation substituted when `messages is None`
(lines 148-154). -/
def default_messages : List Msg :=
  [⟨Role.sender, "Hello!"⟩,
   ⟨Role.receiver, "Just letting you know the codes are working fine."⟩,
   ⟨Role.receiver,
    "This message is intentionally longer, ensuring multiple lines for a nice demonstration of wrapping."⟩]

/-- Everything `generate_chat_image` draws or saves, as observable data:
the bubble boxes (newest first), the generated time label text, the
top-left position the time label is drawn at (None when no bubble
exists), the position of the "Seen just now" label when drawn, and
whether `img.save` was reached. -/
structure RenderResult where
  boxes : List Box
  timeLabel : String
  timePos : Option (Int × Int)
  seenPos : Option (Int × Int)
  saved : Bool
deriving Repr

/-- Lines 259-268: the "Seen just now" label.  `bottom_bubble_box` is
`boxes.head?` (the box recorded at `i == 0`); the label is drawn exactly
when that box exists and `messages[-1]` has role receiver, at
`(r - seen_width, b + 10)`. -/
def seenFor (measureT : String → Nat × Nat) (boxes : List Box)
    (msgs : List Msg) : Option (Int × Int) :=
  match boxes.head?, msgs.getLast? with
  | some bb, some lastMsg =>
      if lastMsg.role = Role.receiver then
        some (bb.right - ((measureT ("Seen just now")).1 : Int),
              bb.bottom + 10)
      else none
  | _, _ => none

/-- Lines 270-276: the random timestamp label above the oldest bubble.
`top_bubble_box` is `boxes.getLast?` (the box recorded at
`i == len - 1`); the label is drawn at
`((img_width // 2) - (time_width // 2), t - time_height - 50)`. -/
def timeFor (measureT : String → Nat × Nat) (cfg : Config)
    (time_text : String) (boxes : List Box) : Option (Int × Int) :=
  match boxes.getLast? with
  | some tb =>
      some (((cfg.img_width / 2 : Nat) : Int) -
              (((measureT time_text).1 / 2 : Nat) : Int),
            tb.top - ((measureT time_text).2 : Int) - 50)
  | none => none

/-- The function `generate_chat_image` (lines 119-280).  `measureB`
measures with
`font_bubble`, `measureT` with `font_time`; the random draws are inputs.
The function is total: the source raises no exception on any message
list and always reaches `img.save` (line 279). -/
def generate_chat_image (measureB measureT : String → Nat × Nat)
    (rand_hour rand_minute : Nat) (messages : Option (List Msg))
    (cfg : Config) : RenderResult :=
  let msgs := messages.getD default_messages
  let time_text := generate_random_timestamp rand_hour rand_minute
  let boxes :=
    layoutRev measureB cfg ((cfg.img_height : Int) - cfg.bottom_padding)
      msgs.reverse
  { boxes := boxes, timeLabel := time_text,
    timePos := timeFor measureT cfg time_text boxes,
    seenPos := seenFor measureT boxes msgs, saved := true }

/-! ### parse_conversations (chat_parser.py lines 6-37)

The file is modelled as its list of lines; every line is `strip()`ped
before classification, exactly as in the source. -/

def parseGo : List String → List (Role × String) →
    List (List (Role × String))
  | [], current =>
      if current = [] then [] else [current]
  | line :: ls, current =>
      let stripped := pyStrip line
      if pyStartsWith stripped ("A: ") then
        parseGo ls (current ++ [(Role.sender, pyStrip (pyDrop stripped 3))])
      else if pyStartsWith stripped ("B: ") then
        parseGo ls (current ++ [(Role.receiver, pyStrip (pyDrop stripped 3))])
      else
        if current = [] then parseGo ls []
        else current :: parseGo ls []

/-- The function `parse_conversations` over the file's lines. -/
def parse_conversations (lines : List String) :
    List (List (Role × String)) :=
  parseGo lines []

/-- The segmenter as claim C2 literally words it: each raw line is
classified by its literal prefix, with no stripping before the test
(compare `parse_conversations`, which strips first). -/
def parse_conversations_claimed_aux : List String → List (Role × String) →
    List (List (Role × String))
  | [], current =>
      if current = [] then [] else [current]
  | line :: ls, current =>
      if pyStartsWith line ("A: ") then
        parse_conversations_claimed_aux ls
          (current ++ [(Role.sender, pyStrip (pyDrop line 3))])
      else if pyStartsWith line ("B: ") then
        parse_conversations_claimed_aux ls
          (current ++ [(Role.receiver, pyStrip (pyDrop line 3))])
      else
        if current = [] then parse_conversations_claimed_aux ls []
        else current :: parse_conversations_claimed_aux ls []

def parse_conversations_claimed (lines : List String) :
    List (List (Role × String)) :=
  parse_conversations_claimed_aux lines []

/-- A string has the `HH:MM` form with a valid 24-hour reading: exactly
five characters, digits around a colon, hour below 24, minute below 60. -/
def isValidHHMM (s : String) : Bool :=
  match s.toList with
  | [a, b, ':', c, d] =>
      a.isDigit && b.isDigit && c.isDigit && d.isDigit &&
      decide ((a.toNat - 48) * 10 + (b.toNat - 48) < 24) &&
      decide ((c.toNat - 48) * 10 + (d.toNat - 48) < 60)
  | _ => false

/-- A concrete measurement function for witnesses: 10 pixels per
character, every string 40 pixels tall. -/
def measureFix : String → Nat × Nat :=
  fun s => (10 * s.length, 40)

/-- A concrete configuration for witnesses: the defaults of
`generate_chat_image` (lines 119-130), with
`bubble_max_text_width = int(1290 * 0.65) - 64 = 774`. -/
def cfgW : Config :=
  { img_width := 1290, img_height := 1290, bottom_padding := 65,
    left_margin := 108, right_margin := 108, bubble_margin := 22,
    same_person_margin := 2, bubble_max_text_width := 774 }

/-- The speaker-A box of the two-message witness layout. -/
def boxW : Box :=
  { left := 108, top := 995, right := 182, bottom := 1099,
    role := Role.sender }

/-! ## Theorems -/

/-- Every conversation a `parseGo` run emits is non-empty: the two
emission points (delimiter, end-of-input flush) both test the pending
conversation for emptiness first. -/
theorem mem_parseGo_ne_nil (lines : List String) :
    ∀ (cur c : List (Role × String)), c ∈ parseGo lines cur → c ≠ [] := by
  induction lines with
  | nil =>
      intro cur c hc
      by_cases h : cur = []
      · simp [parseGo, h] at hc
      · simp [parseGo, h] at hc
        exact hc ▸ h
  | cons l ls ih =>
      intro cur c hc
      simp only [parseGo] at hc
      split_ifs at hc with h1 h2 h3
      · exact ih _ _ hc
      · exact ih _ _ hc
      · exact ih _ _ hc
      · rcases List.mem_cons.mp hc with h | h
        · exact h ▸ h3
        · exact ih _ _ h

/-- C1 [code_bug evidence]: `generate_chat_image` called on a zero-turn
conversation does not fail: it draws no bubble and no annotation, and it
still reaches `img.save`, producing a blank image — contrary to the
spec's demand that this fail fast as a contract violation. -/
theorem C1_zero_turns_saves_blank_image
    (measureB measureT : String → Nat × Nat) (rand_hour rand_minute : Nat)
    (cfg : Config) :
    (generate_chat_image measureB measureT rand_hour rand_minute
        (some []) cfg).saved = true ∧
    (generate_chat_image measureB measureT rand_hour rand_minute
        (some []) cfg).boxes = [] ∧
    (generate_chat_image measureB measureT rand_hour rand_minute
        (some []) cfg).seenPos = none ∧
    (generate_chat_image measureB measureT rand_hour rand_minute
        (some []) cfg).timePos = none :=
  ⟨rfl, rfl, rfl, rfl⟩

/-- C2 [counterexample]: the claim classifies each raw line by its
literal prefix, making `"  A: hi"` (leading whitespace) a delimiter that
yields no conversation; the code strips the line first and yields a
speaker-A turn `(A, "hi")`. -/
theorem C2_counterexample_leading_space :
    parse_conversations ["  A: hi"] = [[(Role.sender, "hi")]] ∧
    parse_conversations_claimed ["  A: hi"] = [] := by
  decide

/-- C2 [amended]: the segmenter strips each line of surrounding
whitespace and classifies the stripped line by prefix; delimiters close
the current non-empty conversation, a final in-progress conversation is
emitted, no emitted conversation has zero turns, and the transcript
`"A: hi\nB: yo\n\nA: bye\n"` yields exactly
`[[(A,"hi"),(B,"yo")], [(A,"bye")]]`. -/
theorem C2_segmentation_strips_lines :
    parse_conversations (toLines ("A: hi\nB: yo\n\nA: bye\n")) =
      [[(Role.sender, "hi"), (Role.receiver, "yo")],
       [(Role.sender, "bye")]] ∧
    (∀ (lines : List String) (c : List (Role × String)),
      c ∈ parse_conversations lines → c ≠ []) := by
  refine ⟨by decide, ?_⟩
  intro lines c hc
  exact mem_parseGo_ne_nil lines [] c hc

theorem C2_segmentation_strips_lines_witness :
    ([(Role.sender, "x")] : List (Role × String)) ≠ [] :=
  C2_segmentation_strips_lines.2 ["A: x"] [(Role.sender, "x")] (by decide)

theorem mkBox_bottom (measure : String → Nat × Nat) (cfg : Config)
    (m : Msg) (y : Int) : (mkBox measure cfg m y).bottom = y := by
  cases hr : m.role <;> simp [mkBox, hr]

theorem mkBox_role (measure : String → Nat × Nat) (cfg : Config)
    (m : Msg) (y : Int) : (mkBox measure cfg m y).role = m.role := by
  cases hr : m.role <;> simp [mkBox, hr]

/-- The geometric facts true of every box `mkBox` builds: positive
extent in both axes, sender boxes anchored at `left_margin`, receiver
boxes at `img_width - right_margin`. -/
theorem mkBox_spec (measure : String → Nat × Nat) (cfg : Config)
    (m : Msg) (y : Int) :
    (mkBox measure cfg m y).left < (mkBox measure cfg m y).right ∧
    (mkBox measure cfg m y).top < (mkBox measure cfg m y).bottom ∧
    ((mkBox measure cfg m y).role = Role.sender →
      (mkBox measure cfg m y).left = cfg.left_margin) ∧
    ((mkBox measure cfg m y).role = Role.receiver →
      (mkBox measure cfg m y).right =
        (cfg.img_width : Int) - cfg.right_margin) := by
  cases hr : m.role <;> simp [mkBox, hr, bubble_padding] <;> omega

/-- C3: in processed (newest-first) order, each later (older) box's
bottom lies at the previous box's top minus the gap, the gap being
`same_person_margin` when the two roles agree and `bubble_margin`
otherwise; with non-negative gaps this gives
`box[i].bottom <= box[i-1].top` for every consecutive pair. -/
theorem C3_vertical_ordering_and_gaps (measure : String → Nat × Nat)
    (cfg : Config) (hsp : 0 ≤ cfg.same_person_margin)
    (hbg : 0 ≤ cfg.bubble_margin) (y : Int) (msgs : List Msg) :
    List.Chain'
      (fun prev next => next.bottom ≤ prev.top ∧
        prev.top - next.bottom =
          (if next.role = prev.role then cfg.same_person_margin
           else cfg.bubble_margin))
      (layoutRev measure cfg y msgs) := by
  induction msgs generalizing y with
  | nil => exact List.chain'_nil
  | cons m rest ih =>
      cases rest with
      | nil => exact List.chain'_singleton _
      | cons m2 rs =>
          refine List.chain'_cons.mpr ⟨?_, ih _⟩
          rw [mkBox_bottom, mkBox_role]
          by_cases h : m2.role = (mkBox measure cfg m y).role <;>
            simp only [nextCursor, h, if_true, if_false, ite_true, ite_false] <;>
            omega

theorem C3_vertical_ordering_and_gaps_witness :
    List.Chain'
      (fun prev next => next.bottom ≤ prev.top ∧
        prev.top - next.bottom =
          (if next.role = prev.role then cfgW.same_person_margin
           else cfgW.bubble_margin))
      (layoutRev measureFix cfgW 1225
        [⟨Role.receiver, "b"⟩, ⟨Role.sender, "a"⟩]) :=
  C3_vertical_ordering_and_gaps measureFix cfgW (by decide) (by decide)
    1225 [⟨Role.receiver, "b"⟩, ⟨Role.sender, "a"⟩]

/-- C4: every box the layout produces has `right > left` and
`bottom > top`; sender (speaker A) boxes have `left = left_margin`,
receiver (speaker B) boxes have `right = img_width - right_margin`. -/
theorem C4_box_invariants (measure : String → Nat × Nat) (cfg : Config)
    (y : Int) (msgs : List Msg) (box : Box)
    (hb : box ∈ layoutRev measure cfg y msgs) :
    box.left < box.right ∧ box.top < box.bottom ∧
    (box.role = Role.sender → box.left = cfg.left_margin) ∧
    (box.role = Role.receiver →
      box.right = (cfg.img_width : Int) - cfg.right_margin) := by
  induction msgs generalizing y with
  | nil => simp [layoutRev] at hb
  | cons m rest ih =>
      rcases List.mem_cons.mp hb with h | h
      · exact h ▸ mkBox_spec measure cfg m y
      · exact ih _ h

theorem C4_box_invariants_witness :
    boxW.left < boxW.right ∧ boxW.top < boxW.bottom ∧
    (boxW.role = Role.sender → boxW.left = cfgW.left_margin) ∧
    (boxW.role = Role.receiver →
      boxW.right = (cfgW.img_width : Int) - cfgW.right_margin) :=
  C4_box_invariants measureFix cfgW 1225
    [⟨Role.receiver, "b"⟩, ⟨Role.sender, "a"⟩] boxW (by decide)

/-- Invariant of the wrapping loop: every committed line either fits in
`maxW` or satisfies the property `P` that every pending word carries
(instantiated below with membership in the original word list). -/
theorem str_empty_append (s : String) : "" ++ s = s := by
  apply String.ext
  rw [String.data_append]
  rfl

theorem wrapAux_lines_bound (measureW : String → Nat) (maxW : Nat)
    (P : String → Prop) :
    ∀ (ws : List String) (cur : String),
      (cur = "" ∨ measureW cur ≤ maxW ∨ P cur) →
      (∀ w ∈ ws, P w) →
      ∀ line ∈ wrapAux measureW maxW ws cur,
        measureW line ≤ maxW ∨ P line := by
  intro ws
  induction ws with
  | nil =>
      intro cur hcur _ line hline
      by_cases h : cur = ""
      · simp [wrapAux, h] at hline
      · simp [wrapAux, h] at hline
        subst hline
        rcases hcur with h1 | h1 | h1
        · exact absurd h1 h
        · exact Or.inl h1
        · exact Or.inr h1
  | cons w ws ih =>
      intro cur hcur hws line hline
      by_cases hc : cur = ""
      · subst hc
        simp only [wrapAux, if_pos rfl, if_true, str_empty_append, ite_self,
          reduceIte] at hline
        exact ih w (Or.inr (Or.inr (hws w (List.mem_cons_self _ _))))
          (fun x hx => hws x (List.mem_cons_of_mem _ hx)) line hline
      · simp only [wrapAux, hc, if_false, ite_false] at hline
        split_ifs at hline with h1
        · exact ih _ (Or.inr (Or.inl h1))
            (fun x hx => hws x (List.mem_cons_of_mem _ hx)) _ hline
        · rcases List.mem_cons.mp hline with h | h
          · subst h
            rcases hcur with h2 | h2 | h2
            · exact absurd h2 hc
            · exact Or.inl h2
            · exact Or.inr h2
          · exact ih _ (Or.inr (Or.inr (hws w (List.mem_cons_self _ _))))
              (fun x hx => hws x (List.mem_cons_of_mem _ hx)) _ h

/-- C5: every line the wrapper produces measures within `maxW`, except
a line that is a single input word whose own width exceeds `maxW` — such
a word is kept whole (it appears verbatim among the split words of the
input). -/
theorem C5_no_overflow (measureW : String → Nat) (text : String)
    (maxW : Nat) (line : String)
    (hline : line ∈ wrap_text measureW text maxW) :
    measureW line ≤ maxW ∨
      (maxW < measureW line ∧ line ∈ pythonSplit text) := by
  have h := wrapAux_lines_bound measureW maxW (fun w => w ∈ pythonSplit text)
    (pythonSplit text) "" (Or.inl rfl) (fun _ hx => hx) line hline
  rcases h with h | h
  · exact Or.inl h
  · rcases le_or_lt (measureW line) maxW with h2 | h2
    · exact Or.inl h2
    · exact Or.inr ⟨h2, h⟩

theorem C5_no_overflow_witness :
    String.length ("ccccc") ≤ 4 ∨
      (4 < String.length ("ccccc") ∧
        ("ccccc" : String) ∈ pythonSplit ("aa bb ccccc")) :=
  C5_no_overflow String.length ("aa bb ccccc") 4 ("ccccc") (by decide)

theorem splitWordsAux_all_ws :
    ∀ (cs : List Char), (∀ c ∈ cs, c.isWhitespace) →
      splitWordsAux cs [] = [] := by
  intro cs
  induction cs with
  | nil => intro _; rfl
  | cons c cs ih =>
      intro h
      simp only [splitWordsAux, h c (List.mem_cons_self _ _), if_true,
        ite_true]
      exact ih (fun x hx => h x (List.mem_cons_of_mem _ hx))

/-- C7: on empty or whitespace-only text the wrapper returns an empty
line list; the layout still produces a degenerate bubble
(`bubble_height = 0 + 2 * bubble_padding`) via the zero-lines branch,
whose fallback height probe measures the placeholder glyph "Test"; no
division or iteration error can occur (the embedding is a total
function, as is the source on this input). -/
theorem C7_blank_text (measure : String → Nat × Nat) (maxW : Nat)
    (cfg : Config) (r : Role) (y : Int) (text : String)
    (h : ∀ c ∈ text.data, c.isWhitespace) :
    wrap_text (fun s => (measure s).1) text maxW = [] ∧
    textBlock measure maxW text = (0, 0, (measure ("Test")).2) ∧
    (mkBox measure cfg ⟨r, text⟩ y).bottom -
      (mkBox measure cfg ⟨r, text⟩ y).top = 2 * (bubble_padding : Int) := by
  have hsplit : pythonSplit text = [] := splitWordsAux_all_ws text.data h
  have hw : ∀ (mw : String → Nat) (W : Nat), wrap_text mw text W = [] := by
    intro mw W
    unfold wrap_text
    rw [hsplit]
    rfl
  have htb : ∀ W, textBlock measure W text = (0, 0, (measure ("Test")).2) := by
    intro W
    unfold textBlock
    rw [hw _ W]
  refine ⟨hw _ maxW, htb maxW, ?_⟩
  cases r <;> simp [mkBox, htb, bubble_padding]

theorem C7_blank_text_witness :
    wrap_text (fun s => (measureFix s).1) ("  ") 774 = [] ∧
    textBlock measureFix 774 ("  ") = (0, 0, (measureFix ("Test")).2) ∧
    (mkBox measureFix cfgW ⟨Role.sender, "  "⟩ 0).bottom -
      (mkBox measureFix cfgW ⟨Role.sender, "  "⟩ 0).top =
      2 * (bubble_padding : Int) :=
  C7_blank_text measureFix 774 cfgW Role.sender 0 ("  ") (by decide)

theorem timeFor_getLast (measureT : String → Nat × Nat) (cfg : Config)
    (time_text : String) (boxes : List Box) (tb : Box)
    (h : boxes.getLast? = some tb) :
    timeFor measureT cfg time_text boxes =
      some (((cfg.img_width / 2 : Nat) : Int) -
              (((measureT time_text).1 / 2 : Nat) : Int),
            tb.top - ((measureT time_text).2 : Int) - 50) := by
  unfold timeFor
  rw [h]

theorem seenFor_eq (measureT : String → Nat × Nat) (boxes : List Box)
    (msgs : List Msg) (bb : Box) (lastMsg : Msg)
    (hb : boxes.head? = some bb) (hl : msgs.getLast? = some lastMsg) :
    seenFor measureT boxes msgs =
      (if lastMsg.role = Role.receiver then
        some (bb.right - ((measureT ("Seen just now")).1 : Int),
              bb.bottom + 10)
       else none) := by
  unfold seenFor
  rw [hb, hl]

set_option maxHeartbeats 1000000 in
/-- For all valid `randint` draws, the generated label is a well-formed
`HH:MM` 24-hour time (uniformity is modelled by quantifying over the
whole valid range of each draw). -/
theorem hhmm_valid :
    ∀ h < 24, ∀ m < 60,
      isValidHHMM (generate_random_timestamp h m) = true := by
  decide

/-- C8: for every non-empty conversation, the rendered time label is the
`HH:MM` string built from the two uniform draws, is drawn horizontally
centered (`x = img_width/2 - time_width/2`) above the oldest bubble box,
offset upward by the fixed 50-pixel gap plus the label's own height, so
its vertical extent `[ty, ty + time_height]` ends strictly above the
oldest box's top (no overlap). -/
theorem C8_timestamp_label (measureB measureT : String → Nat × Nat)
    (rand_hour rand_minute : Nat) (hh : rand_hour < 24)
    (hm : rand_minute < 60) (cfg : Config) (msgs : List Msg)
    (hne : msgs ≠ []) (res : RenderResult)
    (hres : res = generate_chat_image measureB measureT rand_hour
        rand_minute (some msgs) cfg) :
    res.timeLabel = generate_random_timestamp rand_hour rand_minute ∧
    isValidHHMM res.timeLabel = true ∧
    ∃ tb tx ty, res.boxes.getLast? = some tb ∧
      res.timePos = some (tx, ty) ∧
      tx = ((cfg.img_width / 2 : Nat) : Int) -
        (((measureT res.timeLabel).1 / 2 : Nat) : Int) ∧
      ty = tb.top - ((measureT res.timeLabel).2 : Int) - 50 ∧
      ty + ((measureT res.timeLabel).2 : Int) + 50 = tb.top ∧
      ty + ((measureT res.timeLabel).2 : Int) < tb.top := by
  subst hres
  refine ⟨rfl, hhmm_valid rand_hour hh rand_minute hm, ?_⟩
  have hrev : msgs.reverse ≠ [] :=
    fun h => hne (List.reverse_eq_nil_iff.mp h)
  have hbne : layoutRev measureB cfg
      ((cfg.img_height : Int) - cfg.bottom_padding) msgs.reverse ≠ [] := by
    cases hr : msgs.reverse with
    | nil => exact absurd hr hrev
    | cons m0 rs => simp [layoutRev]
  have htb := List.getLast?_eq_getLast_of_ne_nil hbne
  rw [show (generate_chat_image measureB measureT rand_hour rand_minute
      (some msgs) cfg).timeLabel =
      generate_random_timestamp rand_hour rand_minute from rfl]
  exact ⟨_, _, _, htb, timeFor_getLast measureT cfg _ _ _ htb, rfl, rfl,
    by omega, by omega⟩

theorem C8_timestamp_label_witness :
    (generate_chat_image measureFix measureFix 3 7
        (some [⟨Role.sender, "a"⟩, ⟨Role.receiver, "b"⟩]) cfgW).timeLabel =
      generate_random_timestamp 3 7 ∧
    isValidHHMM (generate_chat_image measureFix measureFix 3 7
        (some [⟨Role.sender, "a"⟩, ⟨Role.receiver, "b"⟩]) cfgW).timeLabel =
      true ∧
    ∃ tb tx ty,
      (generate_chat_image measureFix measureFix 3 7
          (some [⟨Role.sender, "a"⟩, ⟨Role.receiver, "b"⟩])
          cfgW).boxes.getLast? = some tb ∧
      (generate_chat_image measureFix measureFix 3 7
          (some [⟨Role.sender, "a"⟩, ⟨Role.receiver, "b"⟩])
          cfgW).timePos = some (tx, ty) ∧
      tx = ((cfgW.img_width / 2 : Nat) : Int) -
        (((measureFix (generate_chat_image measureFix measureFix 3 7
            (some [⟨Role.sender, "a"⟩, ⟨Role.receiver, "b"⟩])
            cfgW).timeLabel).1 / 2 : Nat) : Int) ∧
      ty = tb.top - ((measureFix (generate_chat_image measureFix measureFix
          3 7 (some [⟨Role.sender, "a"⟩, ⟨Role.receiver, "b"⟩])
          cfgW).timeLabel).2 : Int) - 50 ∧
      ty + ((measureFix (generate_chat_image measureFix measureFix 3 7
          (some [⟨Role.sender, "a"⟩, ⟨Role.receiver, "b"⟩])
          cfgW).timeLabel).2 : Int) + 50 = tb.top ∧
      ty + ((measureFix (generate_chat_image measureFix measureFix 3 7
          (some [⟨Role.sender, "a"⟩, ⟨Role.receiver, "b"⟩])
          cfgW).timeLabel).2 : Int) < tb.top :=
  C8_timestamp_label measureFix measureFix 3 7 (by decide) (by decide)
    cfgW [⟨Role.sender, "a"⟩, ⟨Role.receiver, "b"⟩] (by decide) _ rfl

/-- C9: for every non-empty conversation, the "Seen just now" label is
drawn exactly when the chronologically last turn's role is receiver
(speaker B), right-aligned to the newest bubble's right edge
(`x = right - seen_width`) and 10 pixels below its bottom edge. -/
theorem C9_seen_iff_receiver (measureB measureT : String → Nat × Nat)
    (rand_hour rand_minute : Nat) (cfg : Config) (msgs : List Msg)
    (hne : msgs ≠ []) (res : RenderResult)
    (hres : res = generate_chat_image measureB measureT rand_hour
        rand_minute (some msgs) cfg) :
    ∃ lastMsg bb, msgs.getLast? = some lastMsg ∧
      res.boxes.head? = some bb ∧
      res.seenPos =
        (if lastMsg.role = Role.receiver then
          some (bb.right - ((measureT ("Seen just now")).1 : Int),
                bb.bottom + 10)
         else none) := by
  subst hres
  have hlast := List.getLast?_eq_getLast_of_ne_nil hne
  have hrev : msgs.reverse ≠ [] :=
    fun h => hne (List.reverse_eq_nil_iff.mp h)
  have hbne : layoutRev measureB cfg
      ((cfg.img_height : Int) - cfg.bottom_padding) msgs.reverse ≠ [] := by
    cases hr : msgs.reverse with
    | nil => exact absurd hr hrev
    | cons m0 rs => simp [layoutRev]
  have hhead := List.head?_eq_head hbne
  exact ⟨msgs.getLast hne, _, hlast, hhead,
    seenFor_eq measureT _ msgs _ _ hhead hlast⟩

theorem C9_seen_iff_receiver_witness :
    ∃ lastMsg bb,
      ([⟨Role.sender, "a"⟩, ⟨Role.receiver, "b"⟩] : List Msg).getLast? =
        some lastMsg ∧
      (generate_chat_image measureFix measureFix 3 7
          (some [⟨Role.sender, "a"⟩, ⟨Role.receiver, "b"⟩])
          cfgW).boxes.head? = some bb ∧
      (generate_chat_image measureFix measureFix 3 7
          (some [⟨Role.sender, "a"⟩, ⟨Role.receiver, "b"⟩])
          cfgW).seenPos =
        (if lastMsg.role = Role.receiver then
          some (bb.right - ((measureFix ("Seen just now")).1 : Int),
                bb.bottom + 10)
         else none) :=
  C9_seen_iff_receiver measureFix measureFix 3 7 cfgW
    [⟨Role.sender, "a"⟩, ⟨Role.receiver, "b"⟩] (by decide) _ rfl

theorem mk_data (s : String) : String.mk s.data = s := rfl

theorem str_append_ne_empty (a b : String) (h : a ≠ "") : a ++ b ≠ "" := by
  intro he
  apply h
  rw [String.ext_iff] at he ⊢
  rw [String.data_append] at he
  exact (List.append_eq_nil.mp he).1

/-- Every word `pythonSplit` emits is non-empty and whitespace-free
(provided the accumulator is, which holds at the top-level call). -/
theorem splitWordsAux_good :
    ∀ (cs acc : List Char), (∀ c ∈ acc, ¬ c.isWhitespace) →
      ∀ w ∈ splitWordsAux cs acc,
        w.data ≠ [] ∧ ∀ c ∈ w.data, ¬ c.isWhitespace := by
  intro cs
  induction cs with
  | nil =>
      intro acc hacc w hw
      by_cases h : acc = []
      · simp [splitWordsAux, h] at hw
      · simp [splitWordsAux, h] at hw
        subst hw
        refine ⟨by simpa using h, ?_⟩
        intro c hc
        exact hacc c (List.mem_reverse.mp hc)
  | cons c cs ih =>
      intro acc hacc w hw
      simp only [splitWordsAux] at hw
      by_cases hcw : c.isWhitespace
      · simp only [hcw, if_true, ite_true] at hw
        by_cases h : acc = []
        · simp only [h, if_pos rfl, if_true, ite_true] at hw
          exact ih [] (by simp) w hw
        · simp only [h, if_false, ite_false] at hw
          rcases List.mem_cons.mp hw with h1 | h1
          · subst h1
            refine ⟨by simpa using h, ?_⟩
            intro x hx
            exact hacc x (List.mem_reverse.mp hx)
          · exact ih [] (by simp) w h1
      · simp only [hcw, if_false, ite_false] at hw
        refine ih (c :: acc) ?_ w hw
        intro x hx
        rcases List.mem_cons.mp hx with h1 | h1
        · exact h1 ▸ hcw
        · exact hacc x h1

/-- Processing a whitespace-free run just accumulates it. -/
theorem splitWordsAux_nonws_append :
    ∀ (cs : List Char), (∀ c ∈ cs, ¬ c.isWhitespace) →
      ∀ (rest acc : List Char),
        splitWordsAux (cs ++ rest) acc =
          splitWordsAux rest (cs.reverse ++ acc) := by
  intro cs
  induction cs with
  | nil => intro _ rest acc; simp
  | cons c cs ih =>
      intro h rest acc
      have hc : ¬ c.isWhitespace = true := h c (List.mem_cons_self _ _)
      rw [List.cons_append]
      rw [show splitWordsAux (c :: (cs ++ rest)) acc =
          splitWordsAux (cs ++ rest) (c :: acc) from by
        simp [splitWordsAux, hc]]
      rw [ih (fun x hx => h x (List.mem_cons_of_mem _ hx)) rest (c :: acc)]
      simp [List.append_assoc]

theorem joinSp_cons (a : String) (l : List String) :
    joinSp (a :: l) = (if l = [] then a else a ++ " " ++ joinSp l) := by
  cases l <;> simp [joinSp]

/-- Splitting the space-joined form of non-empty, whitespace-free words
recovers exactly those words. -/
theorem pythonSplit_joinSp :
    ∀ (ws : List String),
      (∀ w ∈ ws, w.data ≠ [] ∧ ∀ c ∈ w.data, ¬ c.isWhitespace) →
      pythonSplit (joinSp ws) = ws := by
  intro ws
  induction ws with
  | nil => intro _; rfl
  | cons w ws ih =>
      intro h
      obtain ⟨hwne, hwgood⟩ := h w (List.mem_cons_self _ _)
      cases ws with
      | nil =>
          show splitWordsAux (joinSp [w]).data [] = [w]
          rw [show joinSp [w] = w from rfl]
          calc splitWordsAux w.data []
              = splitWordsAux (w.data ++ []) [] := by rw [List.append_nil]
            _ = splitWordsAux [] (w.data.reverse ++ []) :=
                splitWordsAux_nonws_append w.data hwgood [] []
            _ = [w] := by
                simp [splitWordsAux, hwne, mk_data]
      | cons w2 ws2 =>
          show splitWordsAux
              (w ++ " " ++ joinSp (w2 :: ws2)).data [] = w :: w2 :: ws2
          have hdata : (w ++ " " ++ joinSp (w2 :: ws2)).data =
              w.data ++ (' ' :: (joinSp (w2 :: ws2)).data) := by
            rw [String.data_append, String.data_append]
            simp
          rw [hdata, splitWordsAux_nonws_append w.data hwgood]
          have hrev : w.data.reverse ≠ [] := by simpa using hwne
          have hsp : (' ').isWhitespace = true := rfl
          rw [List.append_nil]
          rw [show splitWordsAux (' ' :: (joinSp (w2 :: ws2)).data)
              w.data.reverse =
              String.mk w.data.reverse.reverse ::
                splitWordsAux (joinSp (w2 :: ws2)).data [] from by
            simp [splitWordsAux, hrev, hsp]]
          rw [List.reverse_reverse, mk_data]
          show w :: pythonSplit (joinSp (w2 :: ws2)) = w :: w2 :: ws2
          rw [ih (fun x hx => h x (List.mem_cons_of_mem _ hx))]

theorem wrapAux_ne_nil (measureW : String → Nat) (maxW : Nat) :
    ∀ (ws : List String) (cur : String), cur ≠ "" →
      wrapAux measureW maxW ws cur ≠ [] := by
  intro ws
  induction ws with
  | nil => intro cur hc; simp [wrapAux, hc]
  | cons w ws ih =>
      intro cur hc
      simp only [wrapAux, hc, if_false, ite_false]
      split_ifs with h1
      · exact ih _ (str_append_ne_empty _ _ (str_append_ne_empty _ _ hc))
      · simp

/-- Committing lines never loses or reorders words: the space-joined
output of the loop equals the space-joined pending line and word list. -/
theorem joinSp_wrapAux (measureW : String → Nat) (maxW : Nat) :
    ∀ (ws : List String) (cur : String), (∀ w ∈ ws, w ≠ "") → cur ≠ "" →
      joinSp (wrapAux measureW maxW ws cur) = joinSp (cur :: ws) := by
  intro ws
  induction ws with
  | nil => intro cur _ hc; simp [wrapAux, hc]
  | cons w ws ih =>
      intro cur hws hc
      have hw : w ≠ "" := hws w (List.mem_cons_self _ _)
      have hws2 : ∀ x ∈ ws, x ≠ "" :=
        fun x hx => hws x (List.mem_cons_of_mem _ hx)
      simp only [wrapAux, hc, if_false, ite_false]
      split_ifs with h1
      · rw [ih _ hws2 (str_append_ne_empty _ _ (str_append_ne_empty _ _ hc))]
        cases ws with
        | nil => rfl
        | cons b t =>
            show (cur ++ " " ++ w) ++ " " ++ joinSp (b :: t) =
              cur ++ " " ++ (w ++ " " ++ joinSp (b :: t))
            simp [String.append_assoc]
      · rw [joinSp_cons, if_neg (wrapAux_ne_nil measureW maxW ws w hw),
          ih w hws2 hw]
        rfl

/-- With an empty pending line, the first word always becomes the new
pending line, whether or not it fits. -/
theorem wrapAux_empty_cur (measureW : String → Nat) (maxW : Nat)
    (w : String) (ws : List String) :
    wrapAux measureW maxW (w :: ws) "" = wrapAux measureW maxW ws w := by
  simp only [wrapAux, if_pos rfl, if_true, str_empty_append, ite_self,
    reduceIte]

/-- C6: wrapping is idempotent — re-wrapping the single-space join of
the wrapped lines, with the same width and measurement function, yields
the same line sequence.  (The join recovers exactly the original word
sequence, and the greedy loop depends only on that word sequence.) -/
theorem C6_wrap_idempotent (measureW : String → Nat) (text : String)
    (maxW : Nat) :
    wrap_text measureW (joinSp (wrap_text measureW text maxW)) maxW =
      wrap_text measureW text maxW := by
  unfold wrap_text
  cases hws : pythonSplit text with
  | nil => rfl
  | cons w ws =>
      have hgood : ∀ x ∈ w :: ws,
          x.data ≠ [] ∧ ∀ c ∈ x.data, ¬ c.isWhitespace := by
        intro x hx
        rw [← hws] at hx
        exact splitWordsAux_good text.data [] (by simp) x hx
      have hne : ∀ x ∈ w :: ws, x ≠ "" := by
        intro x hx
        rw [Ne, String.ext_iff]
        exact (hgood x hx).1
      rw [wrapAux_empty_cur]
      rw [joinSp_wrapAux measureW maxW ws w
        (fun x hx => hne x (List.mem_cons_of_mem _ hx))
        (hne w (List.mem_cons_self _ _))]
      rw [pythonSplit_joinSp (w :: ws) hgood]
      exact wrapAux_empty_cur measureW maxW w ws

/-- C10: calling `generate_chat_image` with `messages = None` renders
the built-in three-message demo conversation (one sender turn followed
by two receiver turns) and completes (reaches `img.save`). -/
theorem C10_none_renders_demo (measureB measureT : String → Nat × Nat)
    (rand_hour rand_minute : Nat) (cfg : Config) :
    generate_chat_image measureB measureT rand_hour rand_minute none cfg =
      generate_chat_image measureB measureT rand_hour rand_minute
        (some default_messages) cfg ∧
    (generate_chat_image measureB measureT rand_hour rand_minute
        none cfg).saved = true ∧
    default_messages.map Msg.role =
      [Role.sender, Role.receiver, Role.receiver] ∧
    default_messages.length = 3 :=
  ⟨rfl, rfl, rfl, rfl⟩

end ChatSim
